import Mathlib

/-!
Verification of `dateparser/languages/language.py` (class `Language`): a
per-language normalizer/tokenizer for natural-language date expressions.
Python strings are modelled as Lean `String` (ASCII fragment of Unicode),
Python lists as Lean `List`, and the external dictionary collaborator as an
association list of lowercase keys to canonical values.  Loops that the
source writes with mutable indices are modelled by structurally recursive
functions, with an explicit fuel argument where the recursion advances by
more than one element at a time (the fuel chosen is always sufficient, so
the fuel-exhaustion branch only makes the function total).
-/

namespace DateparserLang

/-! ## Python string primitives -/

/-- Characters matched by Python's `\s` (ASCII fragment). -/
def pySpaceChars : List Char := [' ', '\t', '\n', '\r', '\x0c', '\x0b']

/-- ASCII model of Python `str.lower` on one character. -/
def pyLowerChar (c : Char) : Char :=
  if 65 ≤ c.toNat ∧ c.toNat ≤ 90 then Char.ofNat (c.toNat + 32) else c

/-- ASCII model of Python `str.lower`. -/
def pyLower (s : String) : String := ⟨s.data.map pyLowerChar⟩

/-- Python `str.isdigit` (ASCII model): non-empty and every character a digit. -/
def pyIsDigitStr (t : String) : Bool := !t.data.isEmpty && t.data.all Char.isDigit

/-- Python `re.match(r'^[\W_]+$', token)` as a Boolean (ASCII model):
non-empty and every character a non-alphanumeric or an underscore. -/
def pyNonWordToken (t : String) : Bool :=
  !t.data.isEmpty && t.data.all (fun c => !c.isAlphanum || c = '_')

/-- Python `list.remove(x)` when `x` occurs: drop the first (leftmost)
occurrence; identity when `x` is absent (that case raises in Python and is
modelled separately by `pyListRemoveE`). -/
def pyRemoveFirst (l : List String) (x : String) : List String :=
  match l with
  | [] => []
  | a :: rest => if a = x then rest else a :: pyRemoveFirst rest x

/-- Python `str.strip(chars)`: drop characters of `cs` from both ends. -/
def pyStrip (s : String) (cs : List Char) : String :=
  ⟨((s.data.dropWhile (fun c => cs.contains c)).reverse.dropWhile
      (fun c => cs.contains c)).reverse⟩

/-- First-match association-list lookup (the dictionary collaborator's
`word in dictionary` / `dictionary[word]` pair). -/
def lookupEntry (entries : List (String × String)) (k : String) : Option String :=
  match entries with
  | [] => none
  | e :: rest => if e.fst = k then some e.snd else lookupEntry rest k

/-- Python `x or ''` applied to a dictionary value: an empty (falsy) value
stays empty, anything else passes through. -/
def pyOrEmpty (v : String) : String := if v = "" then "" else v

/-! ## Tokenizer: digit runs and dictionary phrase splitting -/

/-- Maximal runs of characters grouped by digit-ness: the result of
`re.split(r"(\d+)", token)` with the capturing group kept and empty
fragments discarded (`Language._split_tokens_with_regex` followed by
`filter(bool, ...)`). -/
def digitRuns : List Char → List (List Char)
  | [] => []
  | c :: cs =>
    match digitRuns cs with
    | [] => [[c]]
    | [] :: rs => [c] :: [] :: rs
    | (d :: ds) :: rs =>
      if c.isDigit == d.isDigit then (c :: d :: ds) :: rs
      else [c] :: (d :: ds) :: rs

/-- Longest non-empty dictionary key that is a prefix of `cs`. -/
def longestKnownKey (keys : List (List Char)) (cs : List Char) : Option (List Char) :=
  keys.foldl
    (fun best k =>
      if !k.isEmpty && k.isPrefixOf cs &&
          decide ((best.getD []).length < k.length) then some k else best)
    none

/-- Modelled from the spec: the dictionary collaborator's phrase splitting
(`Dictionary.split` in `languages/dictionary.py`, which is not part of the
sources given): at each position the longest known word/phrase is
recognized and becomes a token; maximal stretches of unrecognized
characters between matches become tokens verbatim.  `fuel` bounds the
recursion; `rest.length + 1` always suffices since every step consumes at
least one character. -/
def dictSplitTokens (keys : List (List Char)) :
    Nat → List Char → List Char → List (List Char)
  | 0, pending, rest =>
    if pending.isEmpty && rest.isEmpty then [] else [pending.reverse ++ rest]
  | Nat.succ fuel, pending, rest =>
    match longestKnownKey keys rest with
    | some k =>
      (if pending.isEmpty then [] else [pending.reverse]) ++
        k :: dictSplitTokens keys fuel [] (rest.drop k.length)
    | none =>
      match rest with
      | [] => if pending.isEmpty then [] else [pending.reverse]
      | c :: cs => dictSplitTokens keys fuel (c :: pending) cs

/-! ## The Language data model -/

/-- The `Language` instance together with its external collaborators:
`entries` is the dictionary (lowercase key, canonical value; an explicit
deletion is recorded as the empty value, which `dictionary[word] or ''`
renders as `''`); `simplifications` are the compiled simplification
substitutions of a well-formed configuration, each a total function
(`pattern.sub(replacement, ·)`); `capturing` is the capturing-splitter set
built by `_set_splitters` from the external `ALWAYS_KEEP_TOKENS`;
`no_word_spacing` mirrors `'no_word_spacing' in self.info`; `pop_tz` is
the external timezone stripper used by `is_applicable`. -/
structure Language where
  entries : List (String × String)
  simplifications : List (String → String)
  capturing : List String
  no_word_spacing : Bool
  pop_tz : String → String

/-- The dictionary's keys, as character lists, for phrase splitting. -/
def Language.keys (l : Language) : List (List Char) :=
  l.entries.map (fun e => e.fst.data)

/-- Modelled from the spec: drop rule of `Dictionary.split` when
`keep_formatting` is false — punctuation/whitespace-only tokens not in the
capturing set are dropped; with `keep_formatting` true all tokens are kept
verbatim. -/
def dictionarySplit (l : Language) (keepFormatting : Bool) (s : String) : List String :=
  let toks := (dictSplitTokens l.keys (s.data.length + 1) [] s.data).map
    (fun cs => String.mk cs)
  if keepFormatting then toks
  else toks.filter (fun t => l.capturing.contains t || !pyNonWordToken t)

/-- Embedding of `Language._simplify`: lowercase, then apply each simplification rule in
order, re-lowercasing after each rule. -/
def Language.simplify (l : Language) (s : String) : String :=
  l.simplifications.foldl (fun acc f => pyLower (f acc)) (pyLower s)

/-- Embedding of `Language._split`: split on digit runs (keeping them), then split every
fragment by known dictionary words. -/
def Language.split (l : Language) (keepFormatting : Bool) (s : String) : List String :=
  ((digitRuns s.data).map (fun cs => String.mk cs)).flatMap
    (fun t => dictionarySplit l keepFormatting t)

/-- One token's dictionary substitution in `Language.translate` (lines
49–52): lowercase, replace by the mapped value when present (`or ''`),
otherwise pass the original token through unchanged. -/
def substituteToken (l : Language) (w : String) : String :=
  match lookupEntry l.entries (pyLower w) with
  | some v => pyOrEmpty v
  | none => w

/-- The token sequence of `translate` right after dictionary substitution. -/
def substitutedWords (l : Language) (s : String) (keepFormatting : Bool) : List String :=
  (l.split keepFormatting (l.simplify s)).map (substituteToken l)

/-- The fixed time-unit ("freshness") word set of `_clear_future_words`. -/
def freshness_words : List String :=
  ["day", "week", "month", "year", "hour", "minute", "second"]

/-- Python `set(words).isdisjoint(freshness_words)`. -/
def freshnessDisjoint (words : List String) : Bool :=
  words.all (fun w => !(freshness_words.contains w))

/-- Embedding of `Language._clear_future_words`: when no time-unit word is present,
remove the first `"in"` (Python `list.remove`). -/
def clear_future_words (words : List String) : List String :=
  if freshnessDisjoint words then pyRemoveFirst words "in" else words

/-- The `"in"`-clearing step of `translate` (lines 53–54): only applied
when `"in"` is among the words. -/
def inClearStage (words : List String) : List String :=
  if words.contains "in" then clear_future_words words else words

/-! ## Joiner -/

/-- Loop body of `Language._join`: `joined` accumulates; a separator is
inserted between `left` and `right` only when neither is capturing. -/
def joinAux (capturing : List String) (sep : String) :
    String → String → List String → String
  | _, joined, [] => joined
  | left, joined, r :: rs =>
    joinAux capturing sep r
      (if !capturing.contains left && !capturing.contains r
        then joined ++ sep ++ r else joined ++ r) rs

/-- Embedding of `Language._join` with the capturing-splitter set passed explicitly:
empty input yields `""`; otherwise start from the first token and fold. -/
def pyJoin (capturing : List String) (tokens : List String) (sep : String) : String :=
  match tokens with
  | [] => ""
  | t :: ts => joinAux capturing sep t t ts

/-- Specification-side restatement of the joiner contract (spec §4.6),
written from the spec's words for comparison with `pyJoin`: concatenate
left to right, inserting the separator between two consecutive tokens
exactly when neither side is capturing. -/
def joinSpecAux (capturing : List String) (sep : String) :
    String → List String → String
  | _, [] => ""
  | l, r :: rs =>
    (if !capturing.contains l && !capturing.contains r then sep else "") ++
      r ++ joinSpecAux capturing sep r rs

/-- Specification-side joiner (spec §4.6), top level. -/
def joinSpec (capturing : List String) (sep : String) : List String → String
  | [] => ""
  | t :: ts => t ++ joinSpecAux capturing sep t ts

/-- Embedding of `Language.translate`: simplify, split, substitute through the
dictionary, clear `"in"` when appropriate, drop empty tokens, join. -/
def Language.translate (l : Language) (s : String) (keepFormatting : Bool) : String :=
  let words := substitutedWords l s keepFormatting
  let words := inClearStage words
  pyJoin l.capturing (words.filter (fun w => w ≠ ""))
    (if keepFormatting then "" else " ")

/-! ## Search segmenter -/

/-- The group-1 sentence-boundary characters of `_sentence_split`
(the default script family, most European languages). -/
def sentenceBoundaryChars : List Char := ['.', '!', '?', ';', '…', '\r', '\n']

/-- Fragments of `re.split` with the default group-1 sentence pattern:
a match is a maximal run of boundary characters followed by a maximal run
of whitespace; the fragments between matches — including empty leading,
trailing and between-adjacent-matches fragments — are returned in order.
`fuel ≥ rest.length + 1` always suffices since a match consumes at least
one character. -/
def sentRegexSplit : Nat → List Char → List Char → List (List Char)
  | 0, acc, rest => [acc.reverse ++ rest]
  | Nat.succ fuel, acc, rest =>
    match rest with
    | [] => [acc.reverse]
    | c :: cs =>
      if sentenceBoundaryChars.contains c then
        acc.reverse ::
          sentRegexSplit fuel []
            ((cs.dropWhile (fun d => sentenceBoundaryChars.contains d)).dropWhile
              (fun d => pySpaceChars.contains d))
      else sentRegexSplit fuel (c :: acc) cs

/-- The sentence fragments before empty-sentence removal. -/
def reSplitSentences (s : String) : List String :=
  (sentRegexSplit (s.data.length + 1) [] s.data).map (fun cs => String.mk cs)

/-- The empty-sentence removal loop of `_sentence_split`, exactly as the
source writes it: Python's `for i in sentences: if not i:
sentences.remove(i)` advances an internal index on every iteration even
when an element is removed, so the element after a removed one is never
inspected.  The k-th iteration reads index k of the *current* list;
`fuel` bounds the number of iterations (the initial `length + 1` always
suffices since the list never grows). -/
def removeEmptyLoop : Nat → List String → Nat → List String
  | 0, l, _ => l
  | Nat.succ fuel, l, k =>
    match l.get? k with
    | none => l
    | some x =>
      if x = "" then removeEmptyLoop fuel (pyRemoveFirst l "") (k + 1)
      else removeEmptyLoop fuel l (k + 1)

/-- Embedding of `Language._sentence_split` for the default splitter group (no
`sentence_splitter_group` key in `info`): regex split, then the
remove-while-iterating loop intended to drop empty sentences. -/
def sentence_split (s : String) : List String :=
  removeEmptyLoop ((reSplitSentences s).length + 1) (reSplitSentences s) 0

/-- The dash tokens excluded from dictionary hits in `translate_search`. -/
def dashes : List String := ["-", "——", "—", "～"]

/-- The surrounding bracket/quote/punctuation characters stripped before
the dictionary lookup in `translate_search` (Python
`word.strip('()\"\x7b\x7d[],.')`). -/
def searchStripChars : List Char :=
  ['(', ')', '"', '\x7b', '\x7d', '[', ']', ',', '.']

/-- Embedding of `Language._token_with_digits_is_ok`: the digit-bearing test, relaxed
for no-word-spacing languages to also accept `.` `:` `-` `/`. -/
def Language.token_with_digits_is_ok (l : Language) (token : String) : Bool :=
  if l.no_word_spacing then
    token.data.any (fun c => c.isDigit || c = '.' || c = ':' || c = '-' || c = '/')
  else
    token.data.any Char.isDigit

/-- Word classification in the `translate_search` scan loop: the word is
lowercased and simplified; a dictionary hit on the punctuation-stripped
form (unless the word is a dash token) yields its translation; otherwise
a digit-bearing word yields itself; anything else is unrecognized
(`none`), which closes the current chunk. -/
def classifyWord (l : Language) (w : String) : Option String :=
  let word := l.simplify (pyLower w)
  match lookupEntry l.entries (pyStrip word searchStripChars),
      dashes.contains word with
  | some v, false => some v
  | some _, true => if l.token_with_digits_is_ok word then some word else none
  | none, _ => if l.token_with_digits_is_ok word then some word else none

/-- The chunk-scan loop of `translate_search` over one sentence's words:
a recognized or digit-bearing word extends the in-progress (translated,
original) chunk pair; an unrecognized word closes any in-progress chunk
and is itself discarded; the last chunk is closed at sentence end. -/
def chunkWordsAux (l : Language) :
    List String → List String → List String →
      List (List String) × List (List String)
  | [], tc, oc => if tc.isEmpty then ([], []) else ([tc], [oc])
  | w :: ws, tc, oc =>
    match classifyWord l w with
    | some t => chunkWordsAux l ws (tc ++ [t]) (oc ++ [w])
    | none =>
      if tc.isEmpty then chunkWordsAux l ws tc oc
      else
        let p := chunkWordsAux l ws [] []
        (tc :: p.1, oc :: p.2)

/-- The chunk pairs produced from one sentence's word list. -/
def chunkWords (l : Language) (words : List String) :
    List (List String) × List (List String) :=
  chunkWordsAux l words [] []

/-- Runs of non-whitespace characters (Python `str.split()` with no
arguments: split on whitespace runs, dropping empty fragments). -/
def wsSplitRuns : List Char → List Char → List (List Char)
  | acc, [] => if acc.isEmpty then [] else [acc.reverse]
  | acc, c :: cs =>
    if pySpaceChars.contains c then
      if acc.isEmpty then wsSplitRuns [] cs else acc.reverse :: wsSplitRuns [] cs
    else wsSplitRuns (c :: acc) cs

/-- Python `str.split()` on a string. -/
def pyWhitespaceSplit (s : String) : List String :=
  (wsSplitRuns [] s.data).map (fun cs => String.mk cs)

/-- Embedding of `Language._word_split`: tokenizer split with formatting kept for
no-word-spacing languages, whitespace split otherwise. -/
def Language.word_split (l : Language) (s : String) : List String :=
  if l.no_word_spacing then l.split true s else pyWhitespaceSplit s

/-- Embedding of `Language._join_chunk`: formatting-preserving join (empty separator)
for no-word-spacing languages, single-space `str.join` otherwise. -/
def Language.join_chunk (l : Language) (chunk : List String) : String :=
  if l.no_word_spacing then pyJoin l.capturing chunk ""
  else String.intercalate " " chunk

/-- Post-processing of one closed translated chunk in `translate_search`
(lines 87–89): the same `"in"`-clearing as in `translate`, then joining
of the non-empty words. -/
def processTranslatedChunk (l : Language) (chunk : List String) : String :=
  l.join_chunk ((inClearStage chunk).filter (fun w => w ≠ ""))

/-- Embedding of `Language.translate_search` (default sentence-splitter group):
sentence split, per-sentence word scan into aligned chunk pairs, then
per-chunk post-processing into the parallel (translated, original)
string lists. -/
def Language.translate_search (l : Language) (s : String) :
    List String × List String :=
  let pairs := (sentence_split s).map (fun sent => chunkWords l (l.word_split sent))
  let translated := (pairs.map Prod.fst).flatten
  let original := (pairs.map Prod.snd).flatten
  (translated.map (fun c => processTranslatedChunk l c),
   original.map (fun c => l.join_chunk (c.filter (fun w => w ≠ ""))))

/-! ## Applicability check -/

/-- Embedding of `Language._is_date_consists_of_digits_only`: every token is purely
digits (Python `str.isdigit`). -/
def is_date_consists_of_digits_only (tokens : List String) : Bool :=
  tokens.all pyIsDigitStr

/-- Embedding of `Language._are_all_words_in_the_dictionary`: every token, lowercased,
is purely digits or a dictionary key; any other token yields false. -/
def are_all_words_in_the_dictionary (l : Language) (words : List String) : Bool :=
  words.all (fun w =>
    pyIsDigitStr (pyLower w) || (lookupEntry l.entries (pyLower w)).isSome)

/-- Embedding of `Language.is_applicable`: optionally strip a trailing timezone offset
(external `pop_tz_offset_from_string`), then simplify and tokenize with
formatting not kept; return true immediately when every token is purely
digits, otherwise delegate to the dictionary check. -/
def Language.is_applicable (l : Language) (date_string : String)
    (strip_timezone : Bool) : Bool :=
  let ds := if strip_timezone then l.pop_tz date_string else date_string
  let ds := l.simplify ds
  let tokens := l.split false ds
  if is_date_consists_of_digits_only tokens then true
  else are_all_words_in_the_dictionary l tokens

/-! ## Explicit-exception embedding of the translate pipeline -/

/-- The Python exception kinds whose raise points appear in the modelled
operations. -/
inductive PyErr
  | keyError
  | valueError
  | indexError
  | typeError
deriving DecidableEq

/-- Python `dictionary[word]`: raises `KeyError` when the key is absent. -/
def pyDictSubscript (entries : List (String × String)) (k : String) :
    Except PyErr String :=
  match lookupEntry entries k with
  | some v => Except.ok v
  | none => Except.error PyErr.keyError

/-- The substitution loop of `translate` with its potential `KeyError`
made explicit: `dictionary[word]` is executed only under the
`word in dictionary` guard. -/
def substituteWordsE (entries : List (String × String)) :
    List String → Except PyErr (List String)
  | [] => Except.ok []
  | w :: ws =>
    let hd : Except PyErr String :=
      if (lookupEntry entries (pyLower w)).isSome then
        match pyDictSubscript entries (pyLower w) with
        | Except.ok v => Except.ok (pyOrEmpty v)
        | Except.error e => Except.error e
      else Except.ok w
    match hd, substituteWordsE entries ws with
    | Except.ok w', Except.ok rest => Except.ok (w' :: rest)
    | Except.error e, _ => Except.error e
    | Except.ok _, Except.error e => Except.error e

/-- Python `list.remove(x)`: raises `ValueError` when `x` is absent. -/
def pyListRemoveE (l : List String) (x : String) : Except PyErr (List String) :=
  if l.contains x then Except.ok (pyRemoveFirst l x)
  else Except.error PyErr.valueError

/-- Embedding of `_clear_future_words` with the potential `ValueError` of
`words.remove("in")` made explicit. -/
def clear_future_wordsE (words : List String) : Except PyErr (List String) :=
  if freshnessDisjoint words then pyListRemoveE words "in" else Except.ok words

/-- Embedding of `_join` with the `tokens[0]` indexing made explicit: the indexing is
guarded by the early return on an empty token list. -/
def pyJoinE (capturing : List String) (tokens : List String) (sep : String) :
    Except PyErr String :=
  if tokens.isEmpty then Except.ok ""
  else
    match tokens with
    | [] => Except.error PyErr.indexError
    | t :: ts => Except.ok (joinAux capturing sep t t ts)

/-- Embedding of `Language.translate` with every Python raise point of the pipeline
explicit, propagating the first exception. -/
def Language.translateE (l : Language) (s : String) (keepFormatting : Bool) :
    Except PyErr String :=
  match substituteWordsE l.entries (l.split keepFormatting (l.simplify s)) with
  | Except.error e => Except.error e
  | Except.ok words =>
    match (if words.contains "in" then clear_future_wordsE words
           else Except.ok words) with
    | Except.error e => Except.error e
    | Except.ok cleared =>
      pyJoinE l.capturing (cleared.filter (fun w => w ≠ ""))
        (if keepFormatting then "" else " ")

/-- Discriminator for the error case of `Except`. -/
def exceptIsError {ε α : Type} (e : Except ε α) : Bool :=
  match e with
  | Except.error _ => true
  | Except.ok _ => false

/-! ## Grammar-engine bridge (`to_parserinfo`) -/

/-- The `info` record fields that `to_parserinfo` reads: the name-list
entries are optional (Python's `self.info['monday']` raises `KeyError`
when the key is absent), while `skip` and `pertain` default to `[]`
through `info.get`. -/
structure LanguageInfo where
  name : String
  skip : List String
  pertain : List String
  monday : Option String
  tuesday : Option String
  wednesday : Option String
  thursday : Option String
  friday : Option String
  saturday : Option String
  sunday : Option String
  january : Option String
  february : Option String
  march : Option String
  april : Option String
  may : Option String
  june : Option String
  july : Option String
  august : Option String
  september : Option String
  october : Option String
  november : Option String
  december : Option String
  hour : Option String
  minute : Option String
  second : Option String

/-- The descriptor contents built by `to_parserinfo` (the `attributes`
dict handed to the dynamic type creation). -/
structure ParserInfoAttrs where
  JUMP : List String
  PERTAIN : List String
  WEEKDAYS : List String
  MONTHS : List String
  HMS : List String
deriving DecidableEq

/-- Python `self.info['key']` on an optional field. -/
def infoGet (v : Option String) : Except PyErr String :=
  match v with
  | some x => Except.ok x
  | none => Except.error PyErr.keyError

/-- Sequential lookup of a list of `info` fields, propagating the first
`KeyError` (the evaluation order of the `attributes` dict literal). -/
def exceptMapM : List (Option String) → Except PyErr (List String)
  | [] => Except.ok []
  | v :: vs =>
    match infoGet v, exceptMapM vs with
    | Except.ok x, Except.ok xs => Except.ok (x :: xs)
    | Except.error e, _ => Except.error e
    | Except.ok _, Except.error e => Except.error e

/-- The `attributes` dict construction of `to_parserinfo` (lines
297–322): `JUMP`/`PERTAIN` from `info.get` (no raise), then the weekday,
month and hour/minute/second name fields read in source order, each a
potential `KeyError`. -/
def parserinfoAttributes (i : LanguageInfo) : Except PyErr ParserInfoAttrs :=
  match exceptMapM [i.monday, i.tuesday, i.wednesday, i.thursday, i.friday,
      i.saturday, i.sunday],
    exceptMapM [i.january, i.february, i.march, i.april, i.may, i.june,
      i.july, i.august, i.september, i.october, i.november, i.december],
    exceptMapM [i.hour, i.minute, i.second] with
  | Except.ok wd, Except.ok mo, Except.ok hms =>
    Except.ok
      { JUMP := i.skip, PERTAIN := i.pertain,
        WEEKDAYS := wd, MONTHS := mo, HMS := hms }
  | Except.error e, _, _ => Except.error e
  | _, Except.error e, _ => Except.error e
  | _, _, Except.error e => Except.error e

/-- Modelled from CPython semantics: the source's final call
`type(name, bases=[base_cls], dict=attributes)` passes `bases` and `dict`
as keyword arguments, but the `type()` builtin accepts its three
arguments positionally only, so the call raises
`TypeError: type() takes 1 or 3 arguments` whatever the argument values
are. -/
def pyTypeKeywordCall (_nm : String) (_attrs : ParserInfoAttrs) :
    Except PyErr ParserInfoAttrs :=
  Except.error PyErr.typeError

/-- Embedding of `Language.to_parserinfo`: build the attributes dict, format the class
name, then perform the (always-failing) keyword `type()` call. -/
def Language.to_parserinfo (i : LanguageInfo) : Except PyErr ParserInfoAttrs :=
  match parserinfoAttributes i with
  | Except.error e => Except.error e
  | Except.ok attrs => pyTypeKeywordCall (i.name ++ "ParserInfo") attrs

/-- A complete sample info record (all name fields present). -/
def sampleEnglishInfo : LanguageInfo :=
  { name := "en", skip := ["at", "on"], pertain := ["of"],
    monday := some "monday", tuesday := some "tuesday",
    wednesday := some "wednesday", thursday := some "thursday",
    friday := some "friday", saturday := some "saturday",
    sunday := some "sunday",
    january := some "january", february := some "february",
    march := some "march", april := some "april", may := some "may",
    june := some "june", july := some "july", august := some "august",
    september := some "september", october := some "october",
    november := some "november", december := some "december",
    hour := some "hour", minute := some "minute", second := some "second" }

/-! ## Concrete sample languages (for witnesses and counterexamples) -/

/-- A minimal language whose dictionary holds only the word `"in"`
(mapped to itself, as in the English dictionary), with no simplification
rules and an empty capturing set. -/
def inOnlyLang : Language :=
  { entries := [("in", "in")], simplifications := [], capturing := [],
    no_word_spacing := false, pop_tz := fun s => s }

/-- A minimal language whose dictionary holds `"in"` and the time-unit
word `"day"`. -/
def inDayLang : Language :=
  { entries := [("in", "in"), ("day", "day")], simplifications := [],
    capturing := [], no_word_spacing := false, pop_tz := fun s => s }

/-- A minimal language whose dictionary holds only `"monday"`. -/
def mondayLang : Language :=
  { entries := [("monday", "monday")], simplifications := [],
    capturing := [], no_word_spacing := false, pop_tz := fun s => s }

/-- Concatenation of a token list (used to compare a joined token
sequence with the original string, content only). -/
def concatAll (ts : List String) : String := ⟨(ts.map String.data).flatten⟩

/-- Remove every whitespace character (to compare two strings up to
whitespace normalization). -/
def stripAllWhitespace (s : String) : String :=
  ⟨s.data.filter (fun c => !(pySpaceChars.contains c))⟩

end DateparserLang

namespace DateparserLang

/-! ## Theorems -/

theorem toNat_ofNat_valid {n : Nat} (h : n.isValidChar) : (Char.ofNat n).toNat = n := by
  simp [Char.ofNat, h, Char.ofNatAux, Char.toNat, UInt32.toNat]

theorem isDigit_iff_toNat (c : Char) : c.isDigit = true ↔ 48 ≤ c.toNat ∧ c.toNat ≤ 57 := by
  simp [Char.isDigit, Char.toNat, UInt32.le_def, BitVec.le_def, UInt32.toNat]

theorem pyLowerChar_isDigit (c : Char) : (pyLowerChar c).isDigit = c.isDigit := by
  unfold pyLowerChar
  split
  · rename_i h
    have hv : ((c.toNat + 32) : Nat).isValidChar := by
      left
      omega
    have hn : (Char.ofNat (c.toNat + 32)).toNat = c.toNat + 32 := toNat_ofNat_valid hv
    have h1 : (Char.ofNat (c.toNat + 32)).isDigit = false := by
      rw [Bool.eq_false_iff]
      intro hd
      have := (isDigit_iff_toNat _).mp hd
      omega
    have h2 : c.isDigit = false := by
      rw [Bool.eq_false_iff]
      intro hd
      have := (isDigit_iff_toNat _).mp hd
      omega
    rw [h1, h2]
  · rfl

theorem pyLower_isDigit (w : String) : pyIsDigitStr (pyLower w) = pyIsDigitStr w := by
  unfold pyIsDigitStr pyLower
  cases w with
  | mk data =>
    cases data with
    | nil => rfl
    | cons c cs =>
      simp [List.all_map, Function.comp_def, pyLowerChar_isDigit, List.isEmpty]

theorem joinAux_eq_append (capturing : List String) (sep : String) :
    ∀ (rs : List String) (left joined : String),
      joinAux capturing sep left joined rs = joined ++ joinSpecAux capturing sep left rs := by
  intro rs
  induction rs with
  | nil =>
    intro left joined
    simp [joinAux, joinSpecAux]
  | cons r rs ih =>
    intro left joined
    simp only [joinAux, joinSpecAux, ih]
    split
    · simp [String.append_assoc]
    · simp [String.append_assoc]

/-- C4: `join(tokens, separator)` returns `""` on the empty token list and
otherwise concatenates the tokens left to right, inserting the separator
between two consecutive tokens exactly when neither side is a member of
the capturing-splitter set (formalized by equality with the
specification-side `joinSpec`). -/
theorem join_contract (capturing : List String) (sep : String) (tokens : List String) :
    pyJoin capturing tokens sep = joinSpec capturing sep tokens ∧
      pyJoin capturing [] sep = "" := by
  constructor
  · cases tokens with
    | nil => rfl
    | cons t ts => simp [pyJoin, joinSpec, joinAux_eq_append]
  · rfl

/-- C6 counterexample: with `","` a capturing splitter, joining
`["hello", ",", "world"]` with a single-space separator yields
`"hello,world"` (the capturing comma suppresses the separator on *both*
sides), not `"hello, world"` as the claim states. -/
theorem join_comma_cex :
    pyJoin [","] ["hello", ",", "world"] " " = "hello,world" ∧
      ("hello,world" : String) ≠ "hello, world" := by
  constructor
  · rfl
  · decide

/-- C6 (amended): with `","` a capturing splitter, joining
`["hello", ",", "world"]` with a single-space separator yields exactly
`"hello,world"` — no separator is inserted on either side of the comma. -/
theorem join_comma_amended :
    pyJoin [","] ["hello", ",", "world"] " " = "hello,world" := by
  rfl

theorem pyRemoveFirst_decomp (ws : List String) (x : String) (h : x ∈ ws) :
    ∃ pre post, ws = pre ++ x :: post ∧ x ∉ pre ∧
      pyRemoveFirst ws x = pre ++ post := by
  induction ws with
  | nil => cases h
  | cons a rest ih =>
    by_cases ha : a = x
    · exact ⟨[], rest, by simp [ha], by simp, by simp [pyRemoveFirst, ha]⟩
    · have hx : x ∈ rest := by
        cases List.mem_cons.mp h with
        | inl he => exact absurd he.symm ha
        | inr hr => exact hr
      obtain ⟨pre, post, h1, h2, h3⟩ := ih hx
      refine ⟨a :: pre, post, by simp [h1], ?_, by simp [pyRemoveFirst, ha, h3]⟩
      intro hmem
      cases List.mem_cons.mp hmem with
      | inl he => exact ha he.symm
      | inr hp => exact h2 hp

theorem inClearStage_not_disjoint (ws : List String)
    (h : freshnessDisjoint ws = false) : inClearStage ws = ws := by
  unfold inClearStage clear_future_words
  rw [h]
  simp

theorem inClearStage_disjoint (ws : List String)
    (hin : ws.contains "in" = true) (h : freshnessDisjoint ws = true) :
    inClearStage ws = pyRemoveFirst ws "in" := by
  unfold inClearStage clear_future_words
  rw [hin, h]
  simp

/-- C1 (amended): in `translate`, after dictionary substitution of the
token sequence: if at least one time-unit word of
{day, week, month, year, hour, minute, second} is present, every `"in"`
token is retained (the output joins the substituted sequence unchanged);
if no time-unit word is present and `"in"` occurs, only the *leftmost*
occurrence of `"in"` is removed — later occurrences stay in the joined
output (the claim's unconditional removal of `"in"` fails when it occurs
more than once, see the counterexample). -/
theorem translate_in_disambiguation (l : Language) (s : String) (kf : Bool) :
    (freshnessDisjoint (substitutedWords l s kf) = false →
      l.translate s kf =
        pyJoin l.capturing
          ((substitutedWords l s kf).filter (fun w => w ≠ ""))
          (if kf then "" else " ")) ∧
    ((substitutedWords l s kf).contains "in" = true →
      freshnessDisjoint (substitutedWords l s kf) = true →
      ∃ pre post, substitutedWords l s kf = pre ++ "in" :: post ∧ "in" ∉ pre ∧
        l.translate s kf =
          pyJoin l.capturing ((pre ++ post).filter (fun w => w ≠ ""))
            (if kf then "" else " ")) := by
  constructor
  · intro h
    show pyJoin l.capturing
        ((inClearStage (substitutedWords l s kf)).filter (fun w => w ≠ "")) _ = _
    rw [inClearStage_not_disjoint _ h]
  · intro hin hdis
    obtain ⟨pre, post, h1, h2, h3⟩ :=
      pyRemoveFirst_decomp (substitutedWords l s kf) "in" (List.elem_iff.mp hin)
    refine ⟨pre, post, h1, h2, ?_⟩
    show pyJoin l.capturing
        ((inClearStage (substitutedWords l s kf)).filter (fun w => w ≠ "")) _ = _
    rw [inClearStage_disjoint _ hin hdis, h3]

/-- C1 witness for the amended theorem: for `inDayLang` the input
`"in day"` substitutes to `["in", "day"]` (a time-unit word is present,
so `"in"` is kept); for `inOnlyLang` the input `"in in"` substitutes to
`["in", "in"]` and only the leftmost `"in"` is removed. -/
theorem translate_in_disambiguation_witness :
    (Language.translate inDayLang "in day" false =
      pyJoin inDayLang.capturing
        ((substitutedWords inDayLang "in day" false).filter (fun w => w ≠ ""))
        " ") ∧
    (∃ pre post,
      substitutedWords inOnlyLang "in in" false = pre ++ "in" :: post ∧
      "in" ∉ pre ∧
      Language.translate inOnlyLang "in in" false =
        pyJoin inOnlyLang.capturing ((pre ++ post).filter (fun w => w ≠ "")) " ") :=
  ⟨(translate_in_disambiguation inDayLang "in day" false).1 (by decide),
   (translate_in_disambiguation inOnlyLang "in in" false).2 (by decide) (by decide)⟩

/-- C1 counterexample: for `inOnlyLang` the input `"in in"` substitutes to
`["in", "in"]`, no time-unit word is present, yet the translated output is
`"in"` — the token `"in"` is *not* removed from the output (only its first
occurrence is), refuting the claim's "it is removed from the output". -/
theorem translate_in_cex :
    substitutedWords inOnlyLang "in in" false = ["in", "in"] ∧
    freshnessDisjoint (substitutedWords inOnlyLang "in in" false) = true ∧
    Language.translate inOnlyLang "in in" false = "in" := by
  refine ⟨?_, ?_, ?_⟩ <;> rfl

/-- C10: when the post-substitution token sequence of `translate` contains
`"in"` and no time-unit word, the `"in"`-clearing stage removes exactly
the leftmost occurrence of `"in"`: the sequence decomposes as
`pre ++ "in" :: post` with `"in" ∉ pre`, the cleared sequence is
`pre ++ post` (every later occurrence of `"in"` — all inside `post` —
remains), and the joined output is built from `pre ++ post`. -/
theorem translate_in_removes_only_leftmost (l : Language) (s : String) (kf : Bool)
    (hin : (substitutedWords l s kf).contains "in" = true)
    (hdis : freshnessDisjoint (substitutedWords l s kf) = true) :
    ∃ pre post, substitutedWords l s kf = pre ++ "in" :: post ∧ "in" ∉ pre ∧
      inClearStage (substitutedWords l s kf) = pre ++ post ∧
      l.translate s kf =
        pyJoin l.capturing ((pre ++ post).filter (fun w => w ≠ ""))
          (if kf then "" else " ") := by
  obtain ⟨pre, post, h1, h2, h3⟩ :=
    pyRemoveFirst_decomp (substitutedWords l s kf) "in" (List.elem_iff.mp hin)
  refine ⟨pre, post, h1, h2, ?_, ?_⟩
  · rw [inClearStage_disjoint _ hin hdis, h3]
  · show pyJoin l.capturing
        ((inClearStage (substitutedWords l s kf)).filter (fun w => w ≠ "")) _ = _
    rw [inClearStage_disjoint _ hin hdis, h3]

/-- C2: `is_applicable(date_string, strip_timezone=False)` returns true
exactly when every token produced by simplifying and tokenizing the
string (formatting not kept) is either purely digits or a
case-insensitive dictionary entry; in particular a string whose tokens
are all digits is applicable, and any token that is neither digits nor in
the dictionary makes the result false. -/
theorem is_applicable_characterization (l : Language) (s : String) :
    l.is_applicable s false = true ↔
      ∀ w ∈ l.split false (l.simplify s),
        pyIsDigitStr w = true ∨
          (lookupEntry l.entries (pyLower w)).isSome = true := by
  show (if is_date_consists_of_digits_only (l.split false (l.simplify s)) then true
        else are_all_words_in_the_dictionary l (l.split false (l.simplify s)))
          = true ↔ _
  split
  · rename_i h
    refine iff_of_true rfl ?_
    intro w hw
    exact Or.inl (List.all_eq_true.mp h w hw)
  · rename_i h
    unfold are_all_words_in_the_dictionary
    rw [List.all_eq_true]
    constructor
    · intro hall w hw
      have h2 := hall w hw
      simp only [Bool.or_eq_true] at h2
      rcases h2 with hd | hm
      · exact Or.inl (by rw [← pyLower_isDigit]; exact hd)
      · exact Or.inr hm
    · intro hall w hw
      simp only [Bool.or_eq_true]
      rcases hall w hw with hd | hm
      · exact Or.inl (by rw [pyLower_isDigit]; exact hd)
      · exact Or.inr hm

theorem data_mk (cs : List Char) : (String.mk cs).data = cs := rfl

theorem concatAll_cons (t : String) (ts : List String) :
    concatAll (t :: ts) = t ++ concatAll ts := by
  apply String.ext
  simp [concatAll]

theorem joinAux_empty_sep (cap : List String) :
    ∀ (rs : List String) (left joined : String),
      joinAux cap "" left joined rs = joined ++ concatAll rs := by
  intro rs
  induction rs with
  | nil =>
    intro left joined
    show joined = joined ++ concatAll []
    have : concatAll [] = "" := rfl
    rw [this, String.append_empty]
  | cons r rs ih =>
    intro left joined
    show joinAux cap "" r
        (if !cap.contains left && !cap.contains r
          then joined ++ "" ++ r else joined ++ r) rs = _
    have hbr : (if !cap.contains left && !cap.contains r
        then joined ++ "" ++ r else joined ++ r) = joined ++ r := by
      split <;> simp
    rw [hbr, ih, concatAll_cons, String.append_assoc]

theorem pyJoin_empty_sep (cap : List String) (toks : List String) :
    pyJoin cap toks "" = concatAll toks := by
  cases toks with
  | nil => rfl
  | cons t ts =>
    show joinAux cap "" t t ts = _
    rw [joinAux_empty_sep, concatAll_cons]

theorem longestKnownKey_foldl_inv (cs : List Char) :
    ∀ (keys : List (List Char)) (acc : Option (List Char)),
      (∀ b, acc = some b → b.isPrefixOf cs = true) →
      ∀ k,
        keys.foldl
          (fun best k =>
            if !k.isEmpty && k.isPrefixOf cs &&
                decide ((best.getD []).length < k.length) then some k else best)
          acc = some k →
        k.isPrefixOf cs = true := by
  intro keys
  induction keys with
  | nil =>
    intro acc hacc k h
    exact hacc k h
  | cons a rest ih =>
    intro acc hacc k h
    rw [List.foldl_cons] at h
    refine ih _ ?_ k h
    intro b hb
    split at hb
    · rename_i hc
      cases hb
      simp only [Bool.and_eq_true] at hc
      exact hc.1.2
    · exact hacc b hb

theorem longestKnownKey_isPrefixOf (keys : List (List Char)) (cs k : List Char)
    (h : longestKnownKey keys cs = some k) : k.isPrefixOf cs = true := by
  unfold longestKnownKey at h
  exact longestKnownKey_foldl_inv cs keys none (fun b hb => by cases hb) k h

theorem dictSplitTokens_flatten (keys : List (List Char)) :
    ∀ (fuel : Nat) (pending rest : List Char),
      (dictSplitTokens keys fuel pending rest).flatten = pending.reverse ++ rest := by
  intro fuel
  induction fuel with
  | zero =>
    intro pending rest
    show (if pending.isEmpty && rest.isEmpty then []
          else [pending.reverse ++ rest]).flatten = _
    split
    · rename_i h
      simp only [Bool.and_eq_true, List.isEmpty_iff] at h
      rw [h.1, h.2]
      rfl
    · simp
  | succ fuel ih =>
    intro pending rest
    show (match longestKnownKey keys rest with
      | some k =>
        (if pending.isEmpty then [] else [pending.reverse]) ++
          k :: dictSplitTokens keys fuel [] (rest.drop k.length)
      | none =>
        match rest with
        | [] => if pending.isEmpty then [] else [pending.reverse]
        | c :: cs => dictSplitTokens keys fuel (c :: pending) cs).flatten = _
    cases hk : longestKnownKey keys rest with
    | some k =>
      simp only [hk]
      have hpre : k.isPrefixOf rest = true := longestKnownKey_isPrefixOf keys rest k hk
      have hdrop : k ++ rest.drop k.length = rest := by
        obtain ⟨t, ht⟩ := List.isPrefixOf_iff_prefix.mp hpre
        rw [← ht, List.drop_left]
      split
      · rename_i hp
        rw [List.isEmpty_iff.mp hp]
        simp only [List.nil_append, List.flatten_cons, ih, List.reverse_nil, hdrop]
      · rw [List.singleton_append, List.flatten_cons, List.flatten_cons, ih,
          List.reverse_nil, List.nil_append, hdrop]
    | none =>
      simp only [hk]
      cases rest with
      | nil =>
        show (if pending.isEmpty = true then ([] : List (List Char))
              else [pending.reverse]).flatten = pending.reverse ++ []
        split
        · rename_i hp
          rw [List.isEmpty_iff.mp hp]
          rfl
        · simp
      | cons c cs =>
        show (dictSplitTokens keys fuel (c :: pending) cs).flatten =
          pending.reverse ++ c :: cs
        rw [ih]
        simp

theorem digitRuns_flatten (cs : List Char) : (digitRuns cs).flatten = cs := by
  induction cs with
  | nil => rfl
  | cons c cs ih =>
    show (match digitRuns cs with
      | [] => [[c]]
      | [] :: rs => [c] :: [] :: rs
      | (d :: ds) :: rs =>
        if c.isDigit == d.isDigit then (c :: d :: ds) :: rs
        else [c] :: (d :: ds) :: rs).flatten = c :: cs
    cases h : digitRuns cs with
    | nil =>
      have hcs : cs = [] := by rw [← ih, h]; rfl
      subst hcs
      rfl
    | cons r rs =>
      rw [h] at ih
      cases r with
      | nil =>
        simp only [h]
        simp_all
      | cons d ds =>
        simp only [h]
        split <;> simp_all

theorem flatten_flatMap {α : Type} {β : Type} (l : List α) (f : α → List (List β)) :
    (l.flatMap f).flatten = l.flatMap (fun a => (f a).flatten) := by
  induction l with
  | nil => rfl
  | cons a l ih => simp [List.flatMap_cons, ih]

theorem split_keep_formatting_content (l : Language) (s : String) :
    ((l.split true s).map String.data).flatten = s.data := by
  unfold Language.split dictionarySplit
  simp only [if_true, List.map_flatMap, List.flatMap_map, List.map_map,
    Function.comp_def, data_mk, List.map_id']
  rw [flatten_flatMap]
  simp only [dictSplitTokens_flatten, List.reverse_nil, List.nil_append]
  rw [show (fun (run : List Char) => run) = @id (List Char) from rfl, List.flatMap_id]
  exact digitRuns_flatten s.data

/-- C5 (amended): the round trip holds for the formatting-preserving mode:
for every language and input string, joining `split(s, keep_formatting=
True)` with the empty separator (the separator `translate` uses when
formatting is kept) reconstructs `s` exactly.  In the non-formatting mode
the reconstruction can also drop punctuation tokens, not only normalize
whitespace (see the counterexample), so the claim holds only in this
amended form. -/
theorem split_join_roundtrip (l : Language) (s : String) :
    pyJoin l.capturing (l.split true s) "" = s := by
  rw [pyJoin_empty_sep]
  show String.mk ((l.split true s).map String.data).flatten = s
  rw [split_keep_formatting_content]

/-- C5 counterexample: for `mondayLang` the input `"monday,"` splits
(formatting not kept) to `["monday"]` — the trailing comma token is
dropped — so the rejoined string `"monday"` differs from the original by
a missing comma, not merely in whitespace: the whitespace-stripped forms
disagree. -/
theorem split_join_roundtrip_cex :
    Language.split mondayLang false "monday," = ["monday"] ∧
    pyJoin mondayLang.capturing
      (Language.split mondayLang false "monday,") " " = "monday" ∧
    stripAllWhitespace
      (pyJoin mondayLang.capturing
        (Language.split mondayLang false "monday,") " ") ≠
      stripAllWhitespace "monday," := by
  refine ⟨rfl, rfl, by decide⟩

/-- C7 (code bug): on `"a. . . b"` the default-group boundary split
yields the fragments `["a", "", "", "b"]` (two consecutive empties), and
the removal loop — which mutates the list while iterating over it —
returns `["a", "", "b"]`: after removing the first empty fragment the
iteration index advances past the second, so an empty sentence survives,
contradicting the claim (and the loop's evident intent) that every empty
sentence is dropped. -/
theorem sentence_split_keeps_empty :
    reSplitSentences "a. . . b" = ["a", "", "", "b"] ∧
    sentence_split "a. . . b" = ["a", "", "b"] := by
  exact ⟨rfl, rfl⟩

theorem chunkWordsAux_orig_sound (l : Language) :
    ∀ (ws tc oc : List String),
      (∀ w ∈ oc, classifyWord l w ≠ none) →
      ∀ c ∈ (chunkWordsAux l ws tc oc).2, ∀ w ∈ c, classifyWord l w ≠ none := by
  intro ws
  induction ws with
  | nil =>
    intro tc oc hoc c hc w hw
    unfold chunkWordsAux at hc
    split at hc
    · simp at hc
    · simp only [List.mem_singleton] at hc
      subst hc
      exact hoc w hw
  | cons a ws ih =>
    intro tc oc hoc c hc w hw
    unfold chunkWordsAux at hc
    cases hcl : classifyWord l a with
    | some t =>
      simp only [hcl] at hc
      refine ih (tc ++ [t]) (oc ++ [a]) ?_ c hc w hw
      intro w' hw'
      rcases List.mem_append.mp hw' with h' | h'
      · exact hoc w' h'
      · rw [List.mem_singleton] at h'
        subst h'
        rw [hcl]
        simp
    | none =>
      simp only [hcl] at hc
      split at hc
      · exact ih tc oc hoc c hc w hw
      · rcases List.mem_cons.mp hc with h' | h'
        · subst h'
          exact hoc w hw
        · refine ih [] [] ?_ c h' w hw
          intro w' hw'
          simp at hw'

/-- C3: in the `translate_search` scan, an unrecognized word (classified
`none`: neither a punctuation-stripped dictionary hit nor digit-bearing)
never appears in any original chunk — every word an original chunk
retains is classified — and it terminates any in-progress chunk: two
recognized words separated by an unrecognized word scan into two separate
one-word chunk pairs, not one; the original-side result list of
`translate_search` is exactly the per-sentence chunk lists joined. -/
theorem translate_search_unrecognized_boundary (l : Language)
    (u w1 w2 t1 t2 : String)
    (hu : classifyWord l u = none)
    (h1 : classifyWord l w1 = some t1)
    (h2 : classifyWord l w2 = some t2) :
    (∀ ws : List String, ∀ c ∈ (chunkWords l ws).2, ∀ w ∈ c,
        classifyWord l w ≠ none) ∧
    (∀ s : String, (l.translate_search s).2 =
        (((sentence_split s).map
          (fun sent => (chunkWords l (l.word_split sent)).2)).flatten).map
            (fun c => l.join_chunk (c.filter (fun w => w ≠ "")))) ∧
    chunkWords l [w1, u, w2] = ([[t1], [t2]], [[w1], [w2]]) := by
  refine ⟨?_, ?_, ?_⟩
  · intro ws c hc w hw
    refine chunkWordsAux_orig_sound l ws [] [] ?_ c hc w hw
    intro w' hw'
    simp at hw'
  · intro str
    unfold Language.translate_search
    simp [List.map_map, Function.comp_def]
  · unfold chunkWords
    simp [chunkWordsAux, h1, hu, h2]

/-- C3 witness: for `mondayLang`, the recognized word `"monday"` and the
numeric word `"5"` separated by the unrecognized `"xyz"` scan into two
separate one-word chunks. -/
theorem translate_search_unrecognized_boundary_witness :
    chunkWords mondayLang ["monday", "xyz", "5"] =
      ([["monday"], ["5"]], [["monday"], ["5"]]) :=
  (translate_search_unrecognized_boundary mondayLang "xyz" "monday" "5"
    "monday" "5" (by decide) (by decide) (by decide)).2.2

theorem substituteWordsE_ok (entries : List (String × String)) (ws : List String) :
    substituteWordsE entries ws =
      Except.ok (ws.map (fun w =>
        match lookupEntry entries (pyLower w) with
        | some v => pyOrEmpty v
        | none => w)) := by
  induction ws with
  | nil => rfl
  | cons w ws ih =>
    unfold substituteWordsE
    rw [ih]
    cases hl : lookupEntry entries (pyLower w) with
    | none => simp [pyDictSubscript, hl]
    | some v => simp [pyDictSubscript, hl]

theorem clear_future_wordsE_ok (words : List String)
    (hin : words.contains "in" = true) :
    clear_future_wordsE words = Except.ok (clear_future_words words) := by
  unfold clear_future_wordsE clear_future_words pyListRemoveE
  split <;> simp [hin]

theorem pyJoinE_ok (cap : List String) (toks : List String) (sep : String) :
    pyJoinE cap toks sep = Except.ok (pyJoin cap toks sep) := by
  cases toks with
  | nil => rfl
  | cons t ts => rfl

/-- C8: with a well-formed configuration (each compiled simplification
rule a total substitution function), the simplify–split–translate
pipeline never raises: the embedding with every Python raise point
explicit (`dictionary[word]` KeyError, `list.remove("in")` ValueError,
`tokens[0]` IndexError) returns `ok` with the value of the total
embedding on every input — each raise point sits behind a guard that
makes its error branch unreachable. -/
theorem translate_never_raises (l : Language) (s : String) (kf : Bool) :
    l.translateE s kf = Except.ok (l.translate s kf) := by
  unfold Language.translateE Language.translate
  rw [substituteWordsE_ok]
  have hsub : ((l.split kf (l.simplify s)).map (fun w =>
      match lookupEntry l.entries (pyLower w) with
      | some v => pyOrEmpty v
      | none => w)) = substitutedWords l s kf := rfl
  rw [hsub]
  show (match (if (substitutedWords l s kf).contains "in"
      then clear_future_wordsE (substitutedWords l s kf)
      else Except.ok (substitutedWords l s kf)) with
    | Except.error e => Except.error e
    | Except.ok cleared =>
      pyJoinE l.capturing (cleared.filter (fun w => w ≠ ""))
        (if kf then "" else " ")) =
    Except.ok (pyJoin l.capturing
      ((inClearStage (substitutedWords l s kf)).filter (fun w => w ≠ ""))
      (if kf then "" else " "))
  cases hin : (substitutedWords l s kf).contains "in" with
  | false =>
    simp only [inClearStage, hin, Bool.false_eq_true, if_false, pyJoinE_ok]
  | true =>
    simp only [inClearStage, hin, if_true, clear_future_wordsE_ok _ hin, pyJoinE_ok]

theorem exceptMapM_length (vs : List (Option String)) (xs : List String)
    (h : exceptMapM vs = Except.ok xs) : xs.length = vs.length := by
  induction vs generalizing xs with
  | nil =>
    cases h
    rfl
  | cons v vs ih =>
    unfold exceptMapM at h
    split at h
    · rename_i x xs' hx hxs
      cases h
      simp [ih xs' hxs]
    · cases h
    · cases h

/-- C9 (code bug): `to_parserinfo` never returns a descriptor: its final
`type(name, bases=[base_cls], dict=attributes)` call passes `bases` and
`dict` as keyword arguments, which the `type()` builtin rejects, so a
`TypeError` is raised for every info record (a `KeyError` precedes it
when a name field is missing).  The attributes projection itself is the
claimed pure data projection: whenever it succeeds, `WEEKDAYS` has
length 7 (Monday-to-Sunday source order), `MONTHS` length 12
(January-to-December), `HMS` length 3, and `JUMP`/`PERTAIN` equal the
record's skip/pertain entries — as evaluated concretely on the complete
sample record. -/
theorem to_parserinfo_never_returns (i : LanguageInfo) :
    exceptIsError (Language.to_parserinfo i) = true ∧
    (∀ a : ParserInfoAttrs, parserinfoAttributes i = Except.ok a →
      a.WEEKDAYS.length = 7 ∧ a.MONTHS.length = 12 ∧ a.HMS.length = 3 ∧
      a.JUMP = i.skip ∧ a.PERTAIN = i.pertain) ∧
    parserinfoAttributes sampleEnglishInfo = Except.ok
      { JUMP := ["at", "on"], PERTAIN := ["of"],
        WEEKDAYS := ["monday", "tuesday", "wednesday", "thursday",
          "friday", "saturday", "sunday"],
        MONTHS := ["january", "february", "march", "april", "may", "june",
          "july", "august", "september", "october", "november", "december"],
        HMS := ["hour", "minute", "second"] } := by
  refine ⟨?_, ?_, rfl⟩
  · cases h : parserinfoAttributes i with
    | error e => simp [Language.to_parserinfo, h, exceptIsError]
    | ok attrs => simp [Language.to_parserinfo, h, pyTypeKeywordCall, exceptIsError]
  · intro a ha
    unfold parserinfoAttributes at ha
    split at ha
    · rename_i wd mo hms hwd hmo hhms
      cases ha
      refine ⟨?_, ?_, ?_, rfl, rfl⟩
      · exact (exceptMapM_length _ _ hwd).trans rfl
      · exact (exceptMapM_length _ _ hmo).trans rfl
      · exact (exceptMapM_length _ _ hhms).trans rfl
    all_goals cases ha

/-- C10 witness: for `inOnlyLang` on `"in in"` the substituted sequence is
`["in", "in"]`; the clearing stage keeps the second `"in"` and the output
is joined from `[] ++ ["in"]`. -/
theorem translate_in_removes_only_leftmost_witness :
    ∃ pre post,
      substitutedWords inOnlyLang "in in" false = pre ++ "in" :: post ∧
      "in" ∉ pre ∧
      inClearStage (substitutedWords inOnlyLang "in in" false) = pre ++ post ∧
      Language.translate inOnlyLang "in in" false =
        pyJoin inOnlyLang.capturing ((pre ++ post).filter (fun w => w ≠ "")) " " :=
  translate_in_removes_only_leftmost inOnlyLang "in in" false
    (by decide) (by decide)

end DateparserLang
